import Mathlib

/-!
Verification of the `my-first-mcp` project analyzer and tool functions.

The development shallowly embeds the TypeScript functions of the repository
(`analyzeFileLines`, `countLines` / `countLinesRecursive`, `buildTree` /
`analyzeStructure`, `analyzeDependencies` from the project analyzer, and
`calculate`, `reverseString` from `tools.ts`) as executable Lean functions,
and proves the specified properties about them.

Modelling conventions:
- JS strings are Lean `String`s; the JS operations `trim`, `startsWith`,
  `includes` and `split("\n")` are modelled by structurally recursive
  functions over the character list; for `reverseString`, which operates on
  UTF-16 code units via `split("")`, the string is modelled as a `List Nat`
  of code units.
- The filesystem seen by the walkers is a finite tree `FSEntry`; a missing
  root path is the `none` case of an `Option` argument.
- JS objects used as string-keyed records (`byExtension`, package manifests)
  are association lists in insertion order, matching JS own-property order
  for string keys.
- JS numbers in `calculate` are modelled as `ℚ` plus an explicit NaN marker.
-/

/-! ### JS string primitives

The JS string operations used by the code (`trim`, `startsWith`, `includes`,
`split("\n")`) are modelled structurally over the character list of a Lean
`String`, so that every definition reduces by evaluation. -/

/-- `pfx` is a prefix of `s` (character lists). -/
def isPrefixL : List Char → List Char → Bool
  | [], _ => true
  | _ :: _, [] => false
  | a :: pfx, b :: s => a = b && isPrefixL pfx s

/-- `pat` occurs as a contiguous substring of `s` (character lists). -/
def hasSub (pat : List Char) : List Char → Bool
  | [] => isPrefixL pat []
  | c :: rest => isPrefixL pat (c :: rest) || hasSub pat rest

/-- JS `s.includes(pat)`. -/
def strContains (s pat : String) : Bool :=
  hasSub pat.toList s.toList

/-- JS `s.startsWith(pat)`. -/
def jsStartsWith (s pat : String) : Bool :=
  isPrefixL pat.toList s.toList

/-- Drop leading whitespace characters. -/
def dropLeadingWs : List Char → List Char
  | [] => []
  | c :: rest => if c.isWhitespace then dropLeadingWs rest else c :: rest

/-- JS `s.trim()`: strip whitespace from both ends. -/
def jsTrim (s : String) : String :=
  String.mk (dropLeadingWs ((dropLeadingWs s.toList.reverse).reverse))

/-- Split a character list on a separator character; JS
`s.split(sep)` semantics for a one-character separator (a trailing separator
yields a trailing empty segment, the empty string yields one empty segment). -/
def splitOnCharL (sep : Char) : List Char → List (List Char)
  | [] => [[]]
  | c :: rest =>
    let r := splitOnCharL sep rest
    if c = sep then [] :: r
    else
      match r with
      | h :: t => (c :: h) :: t
      | [] => [[c]]

/-- JS `s.split("\n")`. -/
def jsSplitNl (s : String) : List String :=
  (splitOnCharL (Char.ofNat 10) s.toList).map String.mk

/-- Classification of a single line by `analyzeFileLines`. -/
inductive LineKind where
  | code
  | comment
  | blank
deriving DecidableEq, Repr

/-! ### Comment-pattern tables

Source: `getSingleLineCommentPattern`, `getMultiLineCommentStart`,
`getMultiLineCommentEnd`.  Each is a plain string-keyed record looked up as
`patterns[ext] || null`; the JS `|| null` maps an absent key, an explicit
`null` entry and a (never occurring) empty-string entry to `null`.  Records
with explicit `null` values store `none`. -/

def singleLineCommentTable : List (String × Option String) :=
  [("ts", some "//"), ("js", some "//"), ("tsx", some "//"), ("jsx", some "//"),
   ("java", some "//"), ("c", some "//"), ("cpp", some "//"), ("go", some "//"),
   ("rs", some "//"), ("py", some "#"), ("css", none), ("scss", some "//"),
   ("html", none), ("md", none), ("json", none)]

def getSingleLineCommentPattern (ext : String) : Option String :=
  match singleLineCommentTable.lookup ext with
  | some (some p) => if p = "" then none else some p
  | some none => none
  | none => none

def multiLineStartTable : List (String × String) :=
  [("ts", "/*"), ("js", "/*"), ("tsx", "/*"), ("jsx", "/*"), ("java", "/*"),
   ("c", "/*"), ("cpp", "/*"), ("go", "/*"), ("css", "/*"), ("scss", "/*"),
   ("html", "<!--")]

def getMultiLineCommentStart (ext : String) : Option String :=
  match multiLineStartTable.lookup ext with
  | some p => if p = "" then none else some p
  | none => none

def multiLineEndTable : List (String × String) :=
  [("ts", "*/"), ("js", "*/"), ("tsx", "*/"), ("jsx", "*/"), ("java", "*/"),
   ("c", "*/"), ("cpp", "*/"), ("go", "*/"), ("css", "*/"), ("scss", "*/"),
   ("html", "-->")]

def getMultiLineCommentEnd (ext : String) : Option String :=
  match multiLineEndTable.lookup ext with
  | some p => if p = "" then none else some p
  | none => none

/-! ### Per-file line classifier

Source: `analyzeFileLines`.  The loop body, in order: a trimmed-empty line is
blank; inside a multi-line comment the line is a comment and an occurrence of
the end token closes the state; a line starting with the block start token is
a comment and opens the state unless the end token also occurs on it; a line
starting with the single-line token is a comment; otherwise code. -/

/-- One step of the loop of `analyzeFileLines`: the classification of the
line and the multi-line-comment state after it. -/
def classifyStep (slc mls mle : Option String) (inML : Bool) (line : String) :
    LineKind × Bool :=
  let trimmed := jsTrim line
  if trimmed = "" then
    (.blank, inML)
  else if inML then
    let closes := match mle with
      | some e => strContains trimmed e
      | none => false
    (.comment, !closes)
  else if (match mls with
           | some s => jsStartsWith trimmed s
           | none => false) then
    let selfClose := match mle with
      | some e => strContains trimmed e
      | none => false
    (.comment, !selfClose)
  else if (match slc with
           | some s => jsStartsWith trimmed s
           | none => false) then
    (.comment, inML)
  else
    (.code, inML)

/-- The loop of `analyzeFileLines`, instrumented to record the classification
of every line (the counters of the source are recovered by counting kinds). -/
def classifyTrace (slc mls mle : Option String) (inML : Bool) :
    List String → List LineKind
  | [] => []
  | line :: rest =>
    let (k, inML') := classifyStep slc mls mle inML line
    k :: classifyTrace slc mls mle inML' rest

/-- The counters of `analyzeFileLines`: `(code, comment, blank)` accumulated
over the lines starting from multi-line state `inML`. -/
def analyzeLoop (slc mls mle : Option String) (inML : Bool) :
    List String → Nat × Nat × Nat
  | [] => (0, 0, 0)
  | line :: rest =>
    let (k, inML') := classifyStep slc mls mle inML line
    let (c, m, b) := analyzeLoop slc mls mle inML' rest
    match k with
    | .code => (c + 1, m, b)
    | .comment => (c, m + 1, b)
    | .blank => (c, m, b + 1)

/-- Per-file statistics returned by `analyzeFileLines`. -/
structure FileLineStats where
  total : Nat
  code : Nat
  comment : Nat
  blank : Nat
deriving DecidableEq, Repr

/-- Source: `analyzeFileLines(content, ext)`.  Splits on `"\n"` (a trailing
terminator yields a trailing empty segment, counted as a line) and runs the
classification loop with the extension's comment patterns. -/
def analyzeFileLines (content : String) (ext : String) : FileLineStats :=
  let lines := jsSplitNl content
  let slc := getSingleLineCommentPattern ext
  let mls := getMultiLineCommentStart ext
  let mle := getMultiLineCommentEnd ext
  let (c, m, b) := analyzeLoop slc mls mle false lines
  { total := lines.length, code := c, comment := m, blank := b }

/-! ### Filesystem model

The directory tree seen by the walkers: a directory entry carries its child
entries in `readdirSync` order; a file entry carries the text content that
`readFileSync` would return.  The model contains no unreadable files (an
unreadable file is silently skipped by the source and contributes nothing,
exactly like a file absent from the model). -/

inductive FSEntry where
  | file (name : String) (content : String)
  | dir (name : String) (entries : List FSEntry)
deriving Repr

def FSEntry.name : FSEntry → String
  | .file n _ => n
  | .dir n _ => n

def FSEntry.isDir : FSEntry → Bool
  | .file _ _ => false
  | .dir _ _ => true

/-- JS `path.extname(name).slice(1)` (Node semantics): the part of `name`
after its last `.`; empty when there is no `.` or when the only/last `.` is
the leading character (dotfiles have no extension). -/
def extOf (name : String) : String :=
  let rec lastDot : List Char → Nat → Option Nat → Option Nat
    | [], _, acc => acc
    | c :: rest, i, acc =>
      lastDot rest (i + 1) (if c = Char.ofNat 46 then some i else acc)
  match lastDot name.toList 0 none with
  | none => ""
  | some 0 => ""
  | some i => String.mk (name.toList.drop (i + 1))

/-! ### Line counting (`countLines` / `countLinesRecursive`) -/

/-- Per-extension statistics bucket of `byExtension`. -/
structure ExtensionStats where
  files : Nat
  lines : Nat
  codeLines : Nat
  commentLines : Nat
  blankLines : Nat
deriving DecidableEq, Repr

/-- The running `stats` record mutated by `countLinesRecursive` (the source
carries it inside a `LineCountResult` with non-null assertions; the model
separates the always-present accumulator from the optional result fields).
`byExtension` is an association list in key-insertion order, matching JS
string-keyed object semantics. -/
structure LineCountAcc where
  totalLines : Nat
  totalFiles : Nat
  codeLines : Nat
  commentLines : Nat
  blankLines : Nat
  byExtension : List (String × ExtensionStats)
deriving DecidableEq, Repr

/-- JS `stats.byExtension[ext]` update: add the file's counts into the
bucket for `ext`, creating a zeroed bucket first when the key is absent
(a new key is appended, an existing key keeps its position). -/
def updateExt : List (String × ExtensionStats) → String → FileLineStats →
    List (String × ExtensionStats)
  | [], ext, fs =>
    [(ext, { files := 1, lines := fs.total, codeLines := fs.code,
             commentLines := fs.comment, blankLines := fs.blank })]
  | (k, s) :: rest, ext, fs =>
    if k = ext then
      (k, { files := s.files + 1, lines := s.lines + fs.total,
            codeLines := s.codeLines + fs.code,
            commentLines := s.commentLines + fs.comment,
            blankLines := s.blankLines + fs.blank }) :: rest
    else
      (k, s) :: updateExt rest ext fs

/-- The fixed allow-list of recognized text formats in `countLinesRecursive`. -/
def textExtensions : List String :=
  ["ts", "js", "tsx", "jsx", "json", "md", "txt", "css", "scss", "html",
   "py", "go", "rs", "java", "c", "cpp", "h"]

/-- The file branch of `countLinesRecursive`: skip when the extension filter
excludes the file, when the name is dot-prefixed, or when the extension is
not an allowed text format; otherwise classify the content and accumulate. -/
def processFile (filt : Option (List String)) (acc : LineCountAcc)
    (name content : String) : LineCountAcc :=
  let ext := extOf name
  if (match filt with
      | some l => l.length != 0 && !(l.contains ext)
      | none => false) then acc
  else if jsStartsWith name "." then acc
  else if !(textExtensions.contains ext) then acc
  else
    let fileStats := analyzeFileLines content ext
    { totalFiles := acc.totalFiles + 1,
      totalLines := acc.totalLines + fileStats.total,
      codeLines := acc.codeLines + fileStats.code,
      commentLines := acc.commentLines + fileStats.comment,
      blankLines := acc.blankLines + fileStats.blank,
      byExtension := updateExt acc.byExtension ext fileStats }

mutual

/-- The body of the `for` loop of `countLinesRecursive` for one entry: a
dot-prefixed or `node_modules` directory is not descended into, any other
directory is processed recursively, a file goes through `processFile`. -/
def countLinesEntry (filt : Option (List String)) (acc : LineCountAcc) :
    FSEntry → LineCountAcc
  | FSEntry.dir name es =>
    if !(jsStartsWith name ".") && name != "node_modules"
    then countLinesRecursive filt acc es
    else acc
  | FSEntry.file name content => processFile filt acc name content

/-- Source: `countLinesRecursive(dirPath, extensions, stats)`: fold the loop
body over the entries of one directory. -/
def countLinesRecursive (filt : Option (List String)) (acc : LineCountAcc) :
    List FSEntry → LineCountAcc
  | [] => acc
  | e :: rest => countLinesRecursive filt (countLinesEntry filt acc e) rest

end

/-- Result record of `countLines`; on failure only `error` is populated. -/
structure LineCountResult where
  success : Bool
  totalLines : Option Nat
  totalFiles : Option Nat
  codeLines : Option Nat
  commentLines : Option Nat
  blankLines : Option Nat
  byExtension : Option (List (String × ExtensionStats))
  error : Option String
deriving DecidableEq, Repr

/-- Source: `countLines(targetPath, options)`.  `root = none` models a
`targetPath` for which `fs.existsSync` is false. -/
def countLines (targetPath : String) (root : Option (List FSEntry))
    (extensions : Option (List String)) : LineCountResult :=
  match root with
  | none =>
    { success := false, totalLines := none, totalFiles := none,
      codeLines := none, commentLines := none, blankLines := none,
      byExtension := none,
      error := some ("경로를 찾을 수 없습니다: " ++ targetPath) }
  | some entries =>
    let acc := countLinesRecursive extensions
      { totalLines := 0, totalFiles := 0, codeLines := 0, commentLines := 0,
        blankLines := 0, byExtension := [] } entries
    { success := true, totalLines := some acc.totalLines,
      totalFiles := some acc.totalFiles, codeLines := some acc.codeLines,
      commentLines := some acc.commentLines, blankLines := some acc.blankLines,
      byExtension := some acc.byExtension, error := none }

/-! ### Structure tree builder (`buildTree` / `analyzeStructure`) -/

/-- Directory statistics accumulated by `buildTree`. -/
structure DirectoryStats where
  totalFiles : Nat
  totalDirs : Nat
deriving DecidableEq, Repr

/-- Comparator of `buildTree`'s sort as a boolean "less or equal":
directories before files, then by name (`localeCompare` is modelled as the
standard order on strings). -/
def entryLe (a b : FSEntry) : Bool :=
  if a.isDir && !b.isDir then true
  else if !a.isDir && b.isDir then false
  else decide (a.name ≤ b.name)

/-- Stable insertion into an already sorted list. -/
def insertEntry (x : FSEntry) : List FSEntry → List FSEntry
  | [] => [x]
  | y :: ys => if entryLe x y then x :: y :: ys else y :: insertEntry x ys

/-- The (stable) sort applied by `buildTree` at each level. -/
def sortEntries : List FSEntry → List FSEntry
  | [] => []
  | x :: xs => insertEntry x (sortEntries xs)

/-- The hidden-entry filter of `buildTree`: keep an entry when `showHidden`
is set or its name is not dot-prefixed. -/
def visibleEntries (showHidden : Bool) (entries : List FSEntry) :
    List FSEntry :=
  entries.filter (fun e => showHidden || !(jsStartsWith e.name "."))

/-- The guard `depth >= maxDepth` of `buildTree` (`none` models the
`Infinity` default). -/
def depthReached (depth : Nat) (maxDepth : Option Nat) : Bool :=
  match maxDepth with
  | some m => m ≤ depth
  | none => false

mutual

/-- Size of an entry (at least 1), for termination of the renderer. -/
def sizeE : FSEntry → Nat
  | .file _ _ => 1
  | .dir _ es => 1 + sizeL es

/-- Total size of a list of entries. -/
def sizeL : List FSEntry → Nat
  | [] => 0
  | e :: rest => sizeE e + sizeL rest

end

theorem sizeL_insertEntry (x : FSEntry) (l : List FSEntry) :
    sizeL (insertEntry x l) = sizeE x + sizeL l := by
  induction l with
  | nil => rfl
  | cons y ys ih =>
    simp only [insertEntry]
    split
    · rfl
    · simp only [sizeL, ih]; omega

theorem sizeL_sortEntries (l : List FSEntry) :
    sizeL (sortEntries l) = sizeL l := by
  induction l with
  | nil => rfl
  | cons x xs ih => simp only [sortEntries, sizeL_insertEntry, sizeL, ih]

theorem sizeL_filter (p : FSEntry → Bool) (l : List FSEntry) :
    sizeL (l.filter p) ≤ sizeL l := by
  induction l with
  | nil => exact Nat.le_refl 0
  | cons x xs ih =>
    simp only [List.filter]
    split
    · simp only [sizeL]; omega
    · simp only [sizeL]; omega

theorem sizeE_pos (e : FSEntry) : 1 ≤ sizeE e := by
  cases e <;> simp [sizeE]

/-- The loop of `buildTree` over one level's filtered and sorted entries.
The source re-enters `buildTree` for each child directory, which first
checks `depth >= maxDepth` and then filters and sorts that directory's
entries; here that entry guard and preprocessing are inlined at the call
site (`buildTree` below is the thin entry point).  The accumulating `stats`
record is threaded in rendering order, as mutation does in the source. -/
def renderEntries (entries : List FSEntry) (pfx : String) (depth : Nat)
    (maxDepth : Option Nat) (showHidden : Bool) (stats : DirectoryStats) :
    String × DirectoryStats :=
  match entries with
  | [] => ("", stats)
  | e :: rest =>
    let isLast := rest.isEmpty
    let connector := if isLast then "└── " else "├── "
    let newPfx := pfx ++ (if isLast then "    " else "│   ")
    match e with
    | .dir name es =>
      let stats1 : DirectoryStats := { stats with totalDirs := stats.totalDirs + 1 }
      let (sub, stats2) :=
        if depthReached (depth + 1) maxDepth then ("", stats1)
        else renderEntries (sortEntries (visibleEntries showHidden es)) newPfx
          (depth + 1) maxDepth showHidden stats1
      let (restStr, stats3) :=
        renderEntries rest pfx depth maxDepth showHidden stats2
      (pfx ++ connector ++ name ++ "/\n" ++ sub ++ restStr, stats3)
    | .file name _ =>
      let stats1 : DirectoryStats := { stats with totalFiles := stats.totalFiles + 1 }
      let (restStr, stats2) :=
        renderEntries rest pfx depth maxDepth showHidden stats1
      (pfx ++ connector ++ name ++ "\n" ++ restStr, stats2)
termination_by sizeL entries
decreasing_by
  all_goals simp_wf
  · simp only [sizeL, sizeE, sizeL_sortEntries]
    have h1 := sizeL_filter (fun e => showHidden || !(jsStartsWith e.name ".")) es
    simp only [visibleEntries]
    omega
  · simp only [sizeL, sizeE]
    omega
  · simp only [sizeL, sizeE]
    omega

/-- Source: `buildTree(dirPath, prefix, depth, maxDepth, showHidden, stats)`:
return `""` once `depth >= maxDepth`, otherwise filter hidden entries,
sort directories first then by name, and render each entry with its
connector, recursing into directories. -/
def buildTree (entries : List FSEntry) (pfx : String) (depth : Nat)
    (maxDepth : Option Nat) (showHidden : Bool) (stats : DirectoryStats) :
    String × DirectoryStats :=
  if depthReached depth maxDepth then ("", stats)
  else renderEntries (sortEntries (visibleEntries showHidden entries)) pfx
    depth maxDepth showHidden stats

/-- Result record of `analyzeStructure`. -/
structure StructureResult where
  success : Bool
  path : String
  tree : Option String
  stats : Option DirectoryStats
  error : Option String
deriving DecidableEq, Repr

/-- Source: `analyzeStructure(targetPath, options)`.  `root = none` models a
`targetPath` for which `fs.existsSync` is false; `maxDepth = none` models
the `Infinity` default. -/
def analyzeStructure (targetPath : String) (root : Option (List FSEntry))
    (maxDepth : Option Nat) (showHidden : Bool) : StructureResult :=
  match root with
  | none =>
    { success := false, path := targetPath, tree := none, stats := none,
      error := some ("경로를 찾을 수 없습니다: " ++ targetPath) }
  | some entries =>
    let (tree, stats) :=
      buildTree entries "" 0 maxDepth showHidden { totalFiles := 0, totalDirs := 0 }
    { success := true, path := targetPath, tree := some tree,
      stats := some stats, error := none }

/-! ### Dependency extractor (`analyzeDependencies`) -/

/-- A parsed `package.json`: the fields read by `analyzeDependencies`.
`Option` marks JS absence (or a falsy value) of the field; the maps are
association lists in the manifest's own key order (`Object.entries`). -/
structure PackageJson where
  name : Option String
  version : Option String
  description : Option String
  dependencies : Option (List (String × String))
  devDependencies : Option (List (String × String))
  scripts : Option (List (String × String))
deriving DecidableEq, Repr

structure DependencyInfo where
  name : String
  version : String
deriving DecidableEq, Repr

structure ScriptInfo where
  name : String
  command : String
deriving DecidableEq, Repr

structure DependencyResult where
  success : Bool
  name : Option String
  version : Option String
  description : Option String
  dependencies : Option (List DependencyInfo)
  devDependencies : Option (List DependencyInfo)
  scripts : Option (List ScriptInfo)
  error : Option String
deriving DecidableEq, Repr

/-- The state of `<targetPath>/package.json` as `analyzeDependencies`
observes it: absent (`existsSync` false), unparsable (`JSON.parse` throws
with a message), or parsed. -/
inductive ManifestState where
  | missing
  | invalid (msg : String)
  | parsed (pkg : PackageJson)
deriving Repr

/-- Source: `analyzeDependencies(targetPath, options)`.  On success `name`,
`version`, `description` are projected as-is; `dependencies` and `scripts`
are populated from their maps when present; `devDependencies` only when
`includeDevDeps` (default true) and the map is present — otherwise the field
stays absent. -/
def analyzeDependencies (targetPath : String) (manifest : ManifestState)
    (includeDevDeps : Bool) : DependencyResult :=
  match manifest with
  | .missing =>
    { success := false, name := none, version := none, description := none,
      dependencies := none, devDependencies := none, scripts := none,
      error := some ("package.json을 찾을 수 없습니다: " ++ targetPath ++ "/package.json") }
  | .invalid msg =>
    { success := false, name := none, version := none, description := none,
      dependencies := none, devDependencies := none, scripts := none,
      error := some msg }
  | .parsed pkg =>
    { success := true, name := pkg.name, version := pkg.version,
      description := pkg.description,
      dependencies := pkg.dependencies.map
        (fun l => l.map (fun nv => { name := nv.1, version := nv.2 })),
      devDependencies :=
        if includeDevDeps then
          pkg.devDependencies.map
            (fun l => l.map (fun nv => { name := nv.1, version := nv.2 }))
        else none,
      scripts := pkg.scripts.map
        (fun l => l.map (fun nc => { name := nc.1, command := nc.2 })),
      error := none }

/-! ### Calculator (`calculate` in `tools.ts`)

JS numbers are modelled as exact rationals together with an explicit NaN
marker; the only NaN the function produces is the explicit one of the
division-by-zero branch, and the guarded `a / b` never divides by zero, so
exact arithmetic is faithful to the branch structure of the source. -/

inductive JSNum where
  | nan
  | num (q : ℚ)
deriving DecidableEq, Repr

inductive Operation where
  | add
  | subtract
  | multiply
  | divide
deriving DecidableEq, Repr

/-- The `symbols` record of `calculate`. -/
def opSymbol : Operation → String
  | .add => "+"
  | .subtract => "-"
  | .multiply => "×"
  | .divide => "÷"

structure CalculateResult where
  result : JSNum
  expression : String
  isError : Bool
  errorMessage : Option String
deriving Repr

/-- Rendering of a number into the `expression` string (the claims under
verification do not constrain the exact numeral format). -/
def numStr (q : ℚ) : String :=
  toString q

/-- Source: `calculate(a, b, operation)`: an early error return for division
by zero (result `NaN`), otherwise the arithmetic result with `isError=false`. -/
def calculate (a b : ℚ) (operation : Operation) : CalculateResult :=
  if operation = .divide ∧ b = 0 then
    { result := .nan,
      expression := numStr a ++ " " ++ opSymbol operation ++ " " ++ numStr b,
      isError := true,
      errorMessage := some "오류: 0으로 나눌 수 없습니다." }
  else
    let r : ℚ :=
      match operation with
      | .add => a + b
      | .subtract => a - b
      | .multiply => a * b
      | .divide => a / b
    { result := .num r,
      expression := numStr a ++ " " ++ opSymbol operation ++ " " ++ numStr b
        ++ " = " ++ numStr r,
      isError := false,
      errorMessage := none }

/-! ### String reversal (`reverseString` in `tools.ts`)

`text.split("").reverse().join("")` operates on the UTF-16 code units of the
JS string; a JS string is therefore modelled as its list of code units. -/

structure ReverseResult where
  original : List Nat
  reversed : List Nat
deriving DecidableEq, Repr

/-- Source: `reverseString(text)`: the input unchanged plus its code-unit
reversal. -/
def reverseString (text : List Nat) : ReverseResult :=
  { original := text, reversed := text.reverse }

/-! ## Claim theorems -/

/-- A string with a non-empty prefix is non-empty. -/
theorem append_ne_empty (s t : String) (h : 0 < s.length) : s ++ t ≠ "" := by
  intro he
  have h2 : (s ++ t).length = 0 := by rw [he]; rfl
  rw [String.length_append] at h2
  omega

/-- C10: `reverseString` is an involution at the code-unit level
(`reverseString(reverseString(s).reversed).reversed == s`) and returns the
input unchanged in `original`. -/
theorem reverseString_involution_c10 (s : List Nat) :
    (reverseString (reverseString s).reversed).reversed = s ∧
    (reverseString s).original = s := by
  exact ⟨List.reverse_reverse s, rfl⟩

/-- C9: `calculate(a, b, "divide")` returns `isError=true` with a populated
`errorMessage` and a `NaN` result exactly when `b = 0`; for `b ≠ 0` it
returns `isError=false` with result `a / b`. -/
theorem calculate_divide_c9 (a b : ℚ) :
    (((calculate a b .divide).isError = true ∧
      (calculate a b .divide).errorMessage ≠ none ∧
      (calculate a b .divide).result = .nan) ↔ b = 0) ∧
    (b ≠ 0 → (calculate a b .divide).isError = false ∧
      (calculate a b .divide).result = .num (a / b)) := by
  by_cases hb : b = 0
  · subst hb
    refine ⟨⟨fun _ => rfl, fun _ => ?_⟩, fun hb => absurd rfl hb⟩
    simp [calculate]
  · constructor
    · simp [calculate, hb]
    · intro _
      simp [calculate, hb]

/-- Witness for C9 at `a = 6`, `b = 2`. -/
theorem calculate_divide_c9_witness :
    (2 : ℚ) ≠ 0 ∧ (calculate 6 2 .divide).isError = false ∧
      (calculate 6 2 .divide).result = .num (6 / 2) := by
  refine ⟨by norm_num, (calculate_divide_c9 6 2).2 (by norm_num)⟩

/-- C2, counterexample: the code classifies `"// c\n\nlet x = 1;\n"` (ext
`ts`) as 4 lines — `split("\n")` yields a trailing empty segment — not as
the claimed 3 lines with one blank. -/
theorem analyzeFileLines_scenarioA_counterexample :
    jsSplitNl "// c\n\nlet x = 1;\n" = ["// c", "", "let x = 1;", ""] ∧
    ¬ (analyzeFileLines "// c\n\nlet x = 1;\n" "ts" =
        { total := 3, code := 1, comment := 1, blank := 1 }) := by
  decide

/-- C2, amended: classifying `"// c\n\nlet x = 1;\n"` with extension `ts`
yields 4 lines total — 1 comment, 2 blank (the trailing line terminator
contributes a final empty segment counted as a blank line), 1 code. -/
theorem analyzeFileLines_scenarioA_c2 :
    analyzeFileLines "// c\n\nlet x = 1;\n" "ts" =
      { total := 4, code := 1, comment := 1, blank := 2 } := by
  decide

/-- C4: on a non-existent root path, `countLines` and `analyzeStructure`
both return `success=false` with a non-empty error message and populate no
other data field (the functions are total, so no exception escapes). -/
theorem notFound_results_c4 (targetPath : String)
    (extensions : Option (List String)) (maxDepth : Option Nat)
    (showHidden : Bool) :
    (∃ msg, msg ≠ "" ∧
      countLines targetPath none extensions =
        { success := false, totalLines := none, totalFiles := none,
          codeLines := none, commentLines := none, blankLines := none,
          byExtension := none, error := some msg }) ∧
    (∃ msg, msg ≠ "" ∧
      analyzeStructure targetPath none maxDepth showHidden =
        { success := false, path := targetPath, tree := none, stats := none,
          error := some msg }) := by
  constructor
  · exact ⟨"경로를 찾을 수 없습니다: " ++ targetPath,
      append_ne_empty _ _ (by decide), rfl⟩
  · exact ⟨"경로를 찾을 수 없습니다: " ++ targetPath,
      append_ne_empty _ _ (by decide), rfl⟩

/-- C5: on a successfully parsed manifest, `includeDevDeps=false` leaves the
`devDependencies` output field absent even when the manifest has a
dev-dependency map; with `includeDevDeps=true` and the map present, the
output lists one `{name, version}` pair per map entry, in order. -/
theorem analyzeDependencies_devDeps_c5 (targetPath : String)
    (pkg : PackageJson) :
    (analyzeDependencies targetPath (.parsed pkg) false).devDependencies
        = none ∧
    (∀ l, pkg.devDependencies = some l →
      (analyzeDependencies targetPath (.parsed pkg) true).devDependencies =
        some (l.map (fun nv => { name := nv.1, version := nv.2 }))) := by
  constructor
  · rfl
  · intro l hl
    simp [analyzeDependencies, hl]

/-- The manifest of the spec's Scenario B. -/
def scenarioBPkg : PackageJson :=
  { name := none, version := none, description := none,
    dependencies := some [("a", "1.0.0")],
    devDependencies := some [("b", "2.0.0")],
    scripts := none }

/-- Witness for C5 on the Scenario B manifest. -/
theorem analyzeDependencies_devDeps_c5_witness :
    (analyzeDependencies "proj" (.parsed scenarioBPkg) false).devDependencies
        = none ∧
    (analyzeDependencies "proj" (.parsed scenarioBPkg) true).devDependencies
        = some [{ name := "b", version := "2.0.0" }] := by
  refine ⟨(analyzeDependencies_devDeps_c5 "proj" scenarioBPkg).1, ?_⟩
  exact (analyzeDependencies_devDeps_c5 "proj" scenarioBPkg).2
    [("b", "2.0.0")] rfl

/-- C8: `countLinesRecursive` does not descend into a dot-prefixed or
`node_modules` directory — the entire subtree contributes nothing to any
counter or bucket — and a dot-prefixed file name contributes nothing. -/
theorem countLines_prune_c8 (filt : Option (List String)) (acc : LineCountAcc)
    (name content : String) (es : List FSEntry) (rest : List FSEntry) :
    ((jsStartsWith name "." = true ∨ name = "node_modules") →
      countLinesRecursive filt acc (FSEntry.dir name es :: rest) =
        countLinesRecursive filt acc rest) ∧
    (jsStartsWith name "." = true →
      countLinesRecursive filt acc (FSEntry.file name content :: rest) =
        countLinesRecursive filt acc rest) := by
  constructor
  · intro h
    have hcond : (!(jsStartsWith name ".") && name != "node_modules") = false := by
      rcases h with h | h
      · simp [h]
      · simp [h]
    simp [countLinesRecursive, countLinesEntry, hcond]
  · intro h
    have hp : processFile filt acc name content = acc := by
      unfold processFile
      simp [h]
    simp [countLinesRecursive, countLinesEntry, hp]

/-- Witness for C8: a `.git` directory, a `node_modules` directory and a
dot-file are all ignored. -/
theorem countLines_prune_c8_witness :
    ((jsStartsWith ".git" "." = true ∨ ".git" = "node_modules") ∧
      countLinesRecursive none
          { totalLines := 0, totalFiles := 0, codeLines := 0,
            commentLines := 0, blankLines := 0, byExtension := [] }
          [FSEntry.dir ".git" [FSEntry.file "a.ts" "x"]] =
        countLinesRecursive none
          { totalLines := 0, totalFiles := 0, codeLines := 0,
            commentLines := 0, blankLines := 0, byExtension := [] } []) ∧
    (jsStartsWith ".env" "." = true ∧
      countLinesRecursive none
          { totalLines := 0, totalFiles := 0, codeLines := 0,
            commentLines := 0, blankLines := 0, byExtension := [] }
          [FSEntry.file ".env" "x"] =
        countLinesRecursive none
          { totalLines := 0, totalFiles := 0, codeLines := 0,
            commentLines := 0, blankLines := 0, byExtension := [] } []) := by
  constructor
  · exact ⟨Or.inl (by decide),
      (countLines_prune_c8 none _ ".git" "" [FSEntry.file "a.ts" "x"] []).1
        (Or.inl (by decide))⟩
  · exact ⟨by decide,
      (countLines_prune_c8 none _ ".env" "x" [] []).2 (by decide)⟩

/-- Each line adds to exactly one of the three counters of the loop of
`analyzeFileLines`. -/
theorem analyzeLoop_total (slc mls mle : Option String) :
    ∀ (lines : List String) (inML : Bool),
      (analyzeLoop slc mls mle inML lines).1
        + (analyzeLoop slc mls mle inML lines).2.1
        + (analyzeLoop slc mls mle inML lines).2.2 = lines.length := by
  intro lines
  induction lines with
  | nil => intro inML; rfl
  | cons line rest ih =>
    intro inML
    rcases hstep : classifyStep slc mls mle inML line with ⟨k, inML2⟩
    have hr := ih inML2
    rcases hrec : analyzeLoop slc mls mle inML2 rest with ⟨c, m, b⟩
    rw [hrec] at hr
    simp only [analyzeLoop, hstep, hrec]
    cases k <;> simp_all <;> omega

/-- Per-file invariant: `code + comment + blank = total`. -/
theorem analyzeFileLines_sum (content ext : String) :
    (analyzeFileLines content ext).code + (analyzeFileLines content ext).comment
      + (analyzeFileLines content ext).blank
      = (analyzeFileLines content ext).total := by
  unfold analyzeFileLines
  rcases h : analyzeLoop (getSingleLineCommentPattern ext)
      (getMultiLineCommentStart ext) (getMultiLineCommentEnd ext) false
      (jsSplitNl content) with ⟨c, m, b⟩
  have := analyzeLoop_total (getSingleLineCommentPattern ext)
      (getMultiLineCommentStart ext) (getMultiLineCommentEnd ext)
      (jsSplitNl content) false
  rw [h] at this
  simp_all

/-- Sum of the `lines` fields over all `byExtension` buckets. -/
def sumExtLines (l : List (String × ExtensionStats)) : Nat :=
  (l.map (fun p => p.2.lines)).sum

/-- The aggregation invariant maintained by the walker: the three line
counters sum to the total, the bucket `lines` sum to the total, and every
bucket satisfies the per-bucket counter equation. -/
def accInv (acc : LineCountAcc) : Prop :=
  acc.codeLines + acc.commentLines + acc.blankLines = acc.totalLines ∧
  sumExtLines acc.byExtension = acc.totalLines ∧
  ∀ p ∈ acc.byExtension,
    p.2.codeLines + p.2.commentLines + p.2.blankLines = p.2.lines

theorem sumExtLines_updateExt (l : List (String × ExtensionStats))
    (ext : String) (fs : FileLineStats) :
    sumExtLines (updateExt l ext fs) = sumExtLines l + fs.total := by
  induction l with
  | nil => simp [updateExt, sumExtLines]
  | cons p rest ih =>
    rcases p with ⟨k, s⟩
    by_cases hk : k = ext
    · simp [updateExt, hk, sumExtLines]
      omega
    · simp [updateExt, hk, sumExtLines] at ih ⊢
      omega

theorem updateExt_bucketInv (l : List (String × ExtensionStats))
    (ext : String) (fs : FileLineStats)
    (hl : ∀ p ∈ l, p.2.codeLines + p.2.commentLines + p.2.blankLines = p.2.lines)
    (hf : fs.code + fs.comment + fs.blank = fs.total) :
    ∀ p ∈ updateExt l ext fs,
      p.2.codeLines + p.2.commentLines + p.2.blankLines = p.2.lines := by
  induction l with
  | nil =>
    intro p hp
    simp [updateExt] at hp
    subst hp
    simpa using hf
  | cons q rest ih =>
    rcases q with ⟨k, s⟩
    by_cases hk : k = ext
    · intro p hp
      simp [updateExt, hk] at hp
      rcases hp with hp | hp
      · subst hp
        have hs := hl (k, s) (by simp)
        simp at hs ⊢
        omega
      · exact hl p (by simp [hp])
    · intro p hp
      simp [updateExt, hk] at hp
      rcases hp with hp | hp
      · subst hp
        exact hl (k, s) (by simp)
      · exact ih (fun q hq => hl q (by simp [hq])) p hp

theorem processFile_inv (filt : Option (List String)) (acc : LineCountAcc)
    (name content : String) (h : accInv acc) :
    accInv (processFile filt acc name content) := by
  unfold processFile
  by_cases c1 : (match filt with
      | some l => l.length != 0 && !(l.contains (extOf name))
      | none => false) = true
  · rw [if_pos c1]; exact h
  · rw [if_neg c1]
    by_cases c2 : jsStartsWith name "." = true
    · rw [if_pos c2]; exact h
    · rw [if_neg c2]
      by_cases c3 : (!textExtensions.contains (extOf name)) = true
      · rw [if_pos c3]; exact h
      · rw [if_neg c3]
        obtain ⟨h1, h2, h3⟩ := h
        have hsum := analyzeFileLines_sum content (extOf name)
        refine ⟨?_, ?_, ?_⟩
        · dsimp only
          omega
        · dsimp only
          rw [sumExtLines_updateExt]
          omega
        · dsimp only
          exact updateExt_bucketInv _ _ _ h3 hsum

mutual

theorem countLinesEntry_inv (filt : Option (List String)) :
    ∀ (e : FSEntry) (acc : LineCountAcc), accInv acc →
      accInv (countLinesEntry filt acc e)
  | FSEntry.dir name es, acc, h => by
    simp only [countLinesEntry]
    by_cases hc : (!(jsStartsWith name ".") && name != "node_modules") = true
    · rw [if_pos hc]
      exact countLinesRecursive_inv filt es acc h
    · rw [if_neg hc]
      exact h
  | FSEntry.file name content, acc, h => by
    simp only [countLinesEntry]
    exact processFile_inv filt acc name content h

theorem countLinesRecursive_inv (filt : Option (List String)) :
    ∀ (es : List FSEntry) (acc : LineCountAcc), accInv acc →
      accInv (countLinesRecursive filt acc es)
  | [], acc, h => by
    simp only [countLinesRecursive]
    exact h
  | e :: rest, acc, h => by
    simp only [countLinesRecursive]
    exact countLinesRecursive_inv filt rest _ (countLinesEntry_inv filt e acc h)

end

/-- C1: every successful `countLines` result satisfies
`codeLines + commentLines + blankLines = totalLines`, the bucket `lines`
sum to `totalLines`, and each bucket satisfies
`codeLines + commentLines + blankLines = lines`. -/
theorem countLines_invariants_c1 (targetPath : String)
    (root : Option (List FSEntry)) (extensions : Option (List String))
    (h : (countLines targetPath root extensions).success = true) :
    ∃ t tf c m b bex,
      countLines targetPath root extensions =
        { success := true, totalLines := some t, totalFiles := some tf,
          codeLines := some c, commentLines := some m, blankLines := some b,
          byExtension := some bex, error := none } ∧
      c + m + b = t ∧
      sumExtLines bex = t ∧
      ∀ p ∈ bex, p.2.codeLines + p.2.commentLines + p.2.blankLines
        = p.2.lines := by
  rcases root with _ | entries
  · simp [countLines] at h
  · have hinv : accInv (countLinesRecursive extensions
        { totalLines := 0, totalFiles := 0, codeLines := 0, commentLines := 0,
          blankLines := 0, byExtension := [] } entries) :=
      countLinesRecursive_inv extensions entries _
        ⟨rfl, rfl, fun p hp => absurd hp (List.not_mem_nil p)⟩
    obtain ⟨h1, h2, h3⟩ := hinv
    exact ⟨_, _, _, _, _, _, rfl, h1, h2, h3⟩

/-- A small concrete directory tree used by witnesses. -/
def demoTree : List FSEntry :=
  [FSEntry.file "a.ts" "// c\n\nlet x = 1;\n",
   FSEntry.dir "sub" [FSEntry.file "b.md" "hello\n\nworld"]]

/-- Witness for C1 on a concrete tree. -/
theorem countLines_invariants_c1_witness :
    (countLines "proj" (some demoTree) none).success = true ∧
    (∃ t tf c m b bex,
      countLines "proj" (some demoTree) none =
        { success := true, totalLines := some t, totalFiles := some tf,
          codeLines := some c, commentLines := some m, blankLines := some b,
          byExtension := some bex, error := none } ∧
      c + m + b = t ∧
      sumExtLines bex = t ∧
      ∀ p ∈ bex, p.2.codeLines + p.2.commentLines + p.2.blankLines
        = p.2.lines) :=
  ⟨rfl, countLines_invariants_c1 "proj" (some demoTree) none rfl⟩

/-- A key of the updated `byExtension` map is the added extension or a key
that was already present. -/
theorem mem_updateExt_keys (l : List (String × ExtensionStats)) (ext : String)
    (fs : FileLineStats) (k : String) (s : ExtensionStats) :
    (k, s) ∈ updateExt l ext fs → k = ext ∨ ∃ s2, (k, s2) ∈ l := by
  induction l with
  | nil =>
    intro hp
    simp [updateExt] at hp
    exact Or.inl hp.1
  | cons q rest ih =>
    rcases q with ⟨k2, s2⟩
    by_cases hk : k2 = ext
    · intro hp
      simp [updateExt, hk] at hp
      rcases hp with ⟨hp, _⟩ | hp
      · exact Or.inl hp
      · exact Or.inr ⟨s, by simp [hp]⟩
    · intro hp
      simp [updateExt, hk] at hp
      rcases hp with ⟨hp1, hp2⟩ | hp
      · exact Or.inr ⟨s2, by simp [hp1]⟩
      · rcases ih hp with h | ⟨s3, h⟩
        · exact Or.inl h
        · exact Or.inr ⟨s3, by simp [h]⟩

/-- With a non-empty extension filter, `processFile` only ever creates
buckets for filtered extensions. -/
theorem processFile_keys (fl : List String) (hfl : fl ≠ [])
    (acc : LineCountAcc) (name content : String)
    (hacc : ∀ k s, (k, s) ∈ acc.byExtension → k ∈ fl) :
    ∀ k s, (k, s) ∈ (processFile (some fl) acc name content).byExtension →
      k ∈ fl := by
  unfold processFile
  by_cases c1 : (fl.length != 0 && !(fl.contains (extOf name))) = true
  · rw [if_pos c1]; exact hacc
  · rw [if_neg c1]
    by_cases c2 : jsStartsWith name "." = true
    · rw [if_pos c2]; exact hacc
    · rw [if_neg c2]
      by_cases c3 : (!textExtensions.contains (extOf name)) = true
      · rw [if_pos c3]; exact hacc
      · rw [if_neg c3]
        intro k s hp
        dsimp only at hp
        have hext : extOf name ∈ fl := by
          by_cases hc : fl.contains (extOf name)
          · simpa using hc
          · exfalso
            apply c1
            have hlen : fl.length ≠ 0 := by
              intro h0
              exact hfl (List.length_eq_zero.mp h0)
            simp [hlen]
            intro hm
            exact hc (by simpa using hm)
        rcases mem_updateExt_keys _ _ _ _ _ hp with h | ⟨s2, h⟩
        · exact h ▸ hext
        · exact hacc k s2 h

mutual

theorem countLinesEntry_keys (fl : List String) (hfl : fl ≠ []) :
    ∀ (e : FSEntry) (acc : LineCountAcc),
      (∀ k s, (k, s) ∈ acc.byExtension → k ∈ fl) →
      ∀ k s, (k, s) ∈ (countLinesEntry (some fl) acc e).byExtension → k ∈ fl
  | FSEntry.dir name es, acc, hacc => by
    simp only [countLinesEntry]
    by_cases hc : (!(jsStartsWith name ".") && name != "node_modules") = true
    · rw [if_pos hc]
      exact countLinesRecursive_keys fl hfl es acc hacc
    · rw [if_neg hc]
      exact hacc
  | FSEntry.file name content, acc, hacc => by
    simp only [countLinesEntry]
    exact processFile_keys fl hfl acc name content hacc

theorem countLinesRecursive_keys (fl : List String) (hfl : fl ≠ []) :
    ∀ (es : List FSEntry) (acc : LineCountAcc),
      (∀ k s, (k, s) ∈ acc.byExtension → k ∈ fl) →
      ∀ k s, (k, s) ∈ (countLinesRecursive (some fl) acc es).byExtension →
        k ∈ fl
  | [], acc, hacc => by
    simp only [countLinesRecursive]
    exact hacc
  | e :: rest, acc, hacc => by
    simp only [countLinesRecursive]
    exact countLinesRecursive_keys fl hfl rest _
      (countLinesEntry_keys fl hfl e acc hacc)

end

/-- C7: with a non-empty `extensions` filter, every key of a successful
`byExtension` map belongs to the filter set (in particular with filter
`["ts"]` the only possible key is `"ts"`). -/
theorem countLines_filter_c7 (targetPath : String)
    (root : Option (List FSEntry)) (fl : List String) (hfl : fl ≠ [])
    (bex : List (String × ExtensionStats))
    (hb : (countLines targetPath root (some fl)).byExtension = some bex) :
    ∀ p ∈ bex, p.1 ∈ fl := by
  rcases root with _ | entries
  · simp [countLines] at hb
  · simp only [countLines] at hb
    intro p hp
    rcases p with ⟨k, s⟩
    apply countLinesRecursive_keys fl hfl entries
      { totalLines := 0, totalFiles := 0, codeLines := 0, commentLines := 0,
        blankLines := 0, byExtension := [] }
      (fun k s h => absurd h (List.not_mem_nil (k, s))) k s
    have hbex : bex = (countLinesRecursive (some fl)
        { totalLines := 0, totalFiles := 0, codeLines := 0, commentLines := 0,
          blankLines := 0, byExtension := [] } entries).byExtension := by
      injection hb with h2
      exact h2.symm
    rw [hbex] at hp
    exact hp

/-- Witness for C7 on a concrete tree with filter `["ts"]`. -/
theorem countLines_filter_c7_witness :
    (["ts"] : List String) ≠ [] ∧
    (countLines "proj" (some demoTree) (some ["ts"])).byExtension =
      some [("ts", { files := 1, lines := 4, codeLines := 1,
                     commentLines := 1, blankLines := 2 })] ∧
    ∀ p ∈ [("ts", ({ files := 1, lines := 4, codeLines := 1,
                     commentLines := 1, blankLines := 2 } : ExtensionStats))],
      p.1 ∈ (["ts"] : List String) := by
  refine ⟨by decide, by decide, ?_⟩
  exact countLines_filter_c7 "proj" (some demoTree) ["ts"] (by decide) _
    (by decide)

/-- A non-empty pattern never occurs in the empty string. -/
theorem strContains_empty (pat : String) (h : pat ≠ "") :
    strContains "" pat = false := by
  cases hp : pat.toList with
  | nil => exact absurd (String.ext hp) h
  | cons c rest =>
    show hasSub pat.toList ("" : String).toList = false
    rw [show ("" : String).toList = ([] : List Char) from rfl, hp]
    rfl

/-- The empty string does not start with a non-empty pattern. -/
theorem jsStartsWith_empty (pat : String) (h : pat ≠ "") :
    jsStartsWith "" pat = false := by
  cases hp : pat.toList with
  | nil => exact absurd (String.ext hp) h
  | cons c rest =>
    show isPrefixL pat.toList ("" : String).toList = false
    rw [show ("" : String).toList = ([] : List Char) from rfl, hp]
    rfl

/-- Every block-comment start token of the table is non-empty (the `|| null`
coercion maps an empty entry to `null`, and no entry is empty). -/
theorem getMultiLineCommentStart_ne_empty (ext mls : String)
    (h : getMultiLineCommentStart ext = some mls) : mls ≠ "" := by
  unfold getMultiLineCommentStart at h
  rcases hl : multiLineStartTable.lookup ext with _ | p <;> rw [hl] at h
  · exact absurd h (by simp)
  · dsimp only at h
    by_cases hp : p = ""
    · rw [if_pos hp] at h
      exact absurd h (by simp)
    · rw [if_neg hp] at h
      injection h with h2
      exact h2 ▸ hp

/-- Every block-comment end token of the table is non-empty. -/
theorem getMultiLineCommentEnd_ne_empty (ext mle : String)
    (h : getMultiLineCommentEnd ext = some mle) : mle ≠ "" := by
  unfold getMultiLineCommentEnd at h
  rcases hl : multiLineEndTable.lookup ext with _ | p <;> rw [hl] at h
  · exact absurd h (by simp)
  · dsimp only at h
    by_cases hp : p = ""
    · rw [if_pos hp] at h
      exact absurd h (by simp)
    · rw [if_neg hp] at h
      injection h with h2
      exact h2 ▸ hp

theorem classifyTrace_cons (slc mls mle : Option String) (inML : Bool)
    (line : String) (rest : List String) (k : LineKind) (inML2 : Bool)
    (h : classifyStep slc mls mle inML line = (k, inML2)) :
    classifyTrace slc mls mle inML (line :: rest) =
      k :: classifyTrace slc mls mle inML2 rest := by
  simp only [classifyTrace, h]

/-- A trimmed-empty line is blank and leaves the multi-line state alone. -/
theorem classifyStep_blank (slc mls mle : Option String) (inML : Bool)
    (line : String) (h : jsTrim line = "") :
    classifyStep slc mls mle inML line = (.blank, inML) := by
  unfold classifyStep
  simp [h]

/-- Inside a block comment, a non-blank line without the end token is a
comment and keeps the state open. -/
theorem classifyStep_inML_noclose (slc mls2 : Option String) (mle line : String)
    (hne : jsTrim line ≠ "") (hnc : strContains (jsTrim line) mle = false) :
    classifyStep slc mls2 (some mle) true line = (.comment, true) := by
  unfold classifyStep
  simp [hne, hnc]

/-- Inside a block comment, a line containing the end token is a comment and
closes the state. -/
theorem classifyStep_inML_close (slc mls2 : Option String) (mle line : String)
    (hmle : mle ≠ "") (hc : strContains (jsTrim line) mle = true) :
    classifyStep slc mls2 (some mle) true line = (.comment, false) := by
  have hne : jsTrim line ≠ "" := by
    intro h0
    rw [h0, strContains_empty mle hmle] at hc
    exact Bool.false_ne_true hc
  unfold classifyStep
  simp [hne, hc]

/-- Outside a block comment, a line starting with the start token is a
comment; the state opens exactly when the end token does not also occur. -/
theorem classifyStep_opener (slc : Option String) (mls mle line : String)
    (hmls : mls ≠ "") (hst : jsStartsWith (jsTrim line) mls = true) :
    classifyStep slc (some mls) (some mle) false line =
      (.comment, !(strContains (jsTrim line) mle)) := by
  have hne : jsTrim line ≠ "" := by
    intro h0
    rw [h0, jsStartsWith_empty mls hmls] at hst
    exact Bool.false_ne_true hst
  unfold classifyStep
  simp [hne, hst]

/-- With the multi-line state open, the classification runs: blank lines are
blank, other lines are comments, up to and including the first line
containing the end token, after which the loop resumes in closed state. -/
theorem classifyTrace_inML (slc mls2 : Option String) (mle : String)
    (hmle : mle ≠ "") :
    ∀ (before : List String) (closer : String) (after : List String),
      (∀ l ∈ before, strContains (jsTrim l) mle = false) →
      strContains (jsTrim closer) mle = true →
      classifyTrace slc mls2 (some mle) true (before ++ closer :: after) =
        (before.map fun l => if jsTrim l = "" then LineKind.blank else .comment)
          ++ .comment :: classifyTrace slc mls2 (some mle) false after := by
  intro before
  induction before with
  | nil =>
    intro closer after _ hcl
    rw [List.nil_append, List.map_nil, List.nil_append,
      classifyTrace_cons slc mls2 (some mle) true closer after .comment false
        (classifyStep_inML_close slc mls2 mle closer hmle hcl)]
  | cons l before ih =>
    intro closer after hb hcl
    have hrest : ∀ x ∈ before, strContains (jsTrim x) mle = false :=
      fun x hx => hb x (List.mem_cons_of_mem l hx)
    have hl : strContains (jsTrim l) mle = false :=
      hb l (List.mem_cons_self l before)
    by_cases hblank : jsTrim l = ""
    · rw [List.cons_append,
        classifyTrace_cons slc mls2 (some mle) true l (before ++ closer :: after)
          .blank true (classifyStep_blank slc mls2 (some mle) true l hblank),
        ih closer after hrest hcl, List.map_cons, List.cons_append]
      rw [if_pos hblank]
    · rw [List.cons_append,
        classifyTrace_cons slc mls2 (some mle) true l (before ++ closer :: after)
          .comment true (classifyStep_inML_noclose slc mls2 mle l hblank hl),
        ih closer after hrest hcl, List.map_cons, List.cons_append]
      rw [if_neg hblank]

/-- The counters of `analyzeFileLines` are exactly the kind counts of the
instrumented trace, so `classifyTrace` is the per-line classification of the
source loop. -/
theorem analyzeLoop_eq_trace_counts (slc mls mle : Option String) :
    ∀ (lines : List String) (inML : Bool),
      analyzeLoop slc mls mle inML lines =
        ((classifyTrace slc mls mle inML lines).count .code,
         (classifyTrace slc mls mle inML lines).count .comment,
         (classifyTrace slc mls mle inML lines).count .blank) := by
  intro lines
  induction lines with
  | nil => intro inML; rfl
  | cons line rest ih =>
    intro inML
    rcases hstep : classifyStep slc mls mle inML line with ⟨k, inML2⟩
    simp only [analyzeLoop, classifyTrace, hstep]
    rw [ih inML2]
    cases k <;> simp [List.count_cons]

/-- C3, amended: for an extension with block-comment delimiters, a line that
starts with the start token and does not contain the end token is a comment
and opens the multi-line state; the following lines up to and including the
first line containing the end token are comments, except that lines that are
blank after trimming remain blank; afterwards classification resumes in the
closed state.  A line that both starts with the start token and contains the
end token is a comment and does not open the state. -/
theorem classifier_block_comment_c3 (ext mls mle opener closer : String)
    (before after rest : List String)
    (hs : getMultiLineCommentStart ext = some mls)
    (he : getMultiLineCommentEnd ext = some mle) :
    (jsStartsWith (jsTrim opener) mls = true →
     strContains (jsTrim opener) mle = false →
     (∀ l ∈ before, strContains (jsTrim l) mle = false) →
     strContains (jsTrim closer) mle = true →
     classifyTrace (getSingleLineCommentPattern ext) (some mls) (some mle)
         false (opener :: (before ++ closer :: after)) =
       .comment ::
         ((before.map fun l => if jsTrim l = "" then LineKind.blank else .comment)
           ++ .comment :: classifyTrace (getSingleLineCommentPattern ext)
                (some mls) (some mle) false after)) ∧
    (jsStartsWith (jsTrim opener) mls = true →
     strContains (jsTrim opener) mle = true →
     classifyTrace (getSingleLineCommentPattern ext) (some mls) (some mle)
         false (opener :: rest) =
       .comment :: classifyTrace (getSingleLineCommentPattern ext) (some mls)
            (some mle) false rest) := by
  have hmls := getMultiLineCommentStart_ne_empty ext mls hs
  have hmle := getMultiLineCommentEnd_ne_empty ext mle he
  constructor
  · intro h1 h2 h3 h4
    have hstep := classifyStep_opener (getSingleLineCommentPattern ext)
      mls mle opener hmls h1
    rw [h2] at hstep
    rw [classifyTrace_cons _ _ _ false opener _ .comment true
      (by simpa using hstep)]
    rw [classifyTrace_inML _ _ mle hmle before closer after h3 h4]
  · intro h1 h2
    have hstep := classifyStep_opener (getSingleLineCommentPattern ext)
      mls mle opener hmls h1
    rw [h2] at hstep
    rw [classifyTrace_cons _ _ _ false opener rest .comment false
      (by simpa using hstep)]

/-- C3, counterexample to the claim as stated: in `"/* a\n\nb\n*/"` (ext
`ts`) the opener line starts the block and the end token first occurs on the
fourth line, yet the second line — blank — is classified blank, not comment
(the blank check precedes the multi-line-state check), so not every line up
to the closing line is a comment: the file counts 3 comment lines and 1
blank line. -/
theorem classifier_block_comment_c3_counterexample :
    getMultiLineCommentStart "ts" = some "/*" ∧
    getMultiLineCommentEnd "ts" = some "*/" ∧
    jsSplitNl "/* a\n\nb\n*/" = ["/* a", "", "b", "*/"] ∧
    jsStartsWith (jsTrim "/* a") "/*" = true ∧
    strContains (jsTrim "/* a") "*/" = false ∧
    strContains (jsTrim "") "*/" = false ∧
    strContains (jsTrim "b") "*/" = false ∧
    strContains (jsTrim "*/") "*/" = true ∧
    classifyTrace (getSingleLineCommentPattern "ts") (some "/*") (some "*/")
        false ["/* a", "", "b", "*/"] ≠
      [.comment, .comment, .comment, .comment] ∧
    analyzeFileLines "/* a\n\nb\n*/" "ts" =
      { total := 4, code := 0, comment := 3, blank := 1 } := by
  decide

/-- Witness for C3 on a concrete block comment with a blank interior line. -/
theorem classifier_block_comment_c3_witness :
    getMultiLineCommentStart "ts" = some "/*" ∧
    getMultiLineCommentEnd "ts" = some "*/" ∧
    jsStartsWith (jsTrim "/* a") "/*" = true ∧
    strContains (jsTrim "/* a") "*/" = false ∧
    (∀ l ∈ ["", "b"], strContains (jsTrim l) "*/" = false) ∧
    strContains (jsTrim "*/") "*/" = true ∧
    classifyTrace (getSingleLineCommentPattern "ts") (some "/*") (some "*/")
        false ("/* a" :: (["", "b"] ++ "*/" :: ["x"])) =
      .comment ::
        ((["", "b"].map fun l => if jsTrim l = "" then LineKind.blank else .comment)
          ++ .comment :: classifyTrace (getSingleLineCommentPattern "ts")
               (some "/*") (some "*/") false ["x"]) := by
  refine ⟨by decide, by decide, by decide, by decide, by decide, by decide, ?_⟩
  exact (classifier_block_comment_c3 "ts" "/*" "*/" "/* a" "*/" ["", "b"] ["x"]
    [] (by decide) (by decide)).1 (by decide) (by decide) (by decide) (by decide)

/-- Spec-side definition for the depth-bound claim: the one-level listing of
the (already filtered and sorted) immediate children — connectors and names,
no descent. -/
def renderTopLevelSpec : List FSEntry → String
  | [] => ""
  | FSEntry.dir name _ :: rest =>
    (if rest.isEmpty then "└── " else "├── ") ++ name ++ "/\n"
      ++ renderTopLevelSpec rest
  | FSEntry.file name _ :: rest =>
    (if rest.isEmpty then "└── " else "├── ") ++ name ++ "\n"
      ++ renderTopLevelSpec rest

theorem renderEntries_depth1 :
    ∀ (l : List FSEntry) (sh : Bool) (stats : DirectoryStats),
      (renderEntries l "" 0 (some 1) sh stats).1 = renderTopLevelSpec l := by
  intro l
  induction l with
  | nil =>
    intro sh stats
    simp [renderEntries, renderTopLevelSpec]
  | cons e rest ih =>
    intro sh stats
    cases e with
    | dir name es =>
      rcases hr : renderEntries rest "" 0 (some 1) sh
          { totalFiles := stats.totalFiles, totalDirs := stats.totalDirs + 1 }
        with ⟨rs, st⟩
      have hd : depthReached (0 + 1) (some 1) = true := by decide
      simp only [renderEntries, hd, if_true, hr, renderTopLevelSpec]
      have hrs := ih sh { totalFiles := stats.totalFiles, totalDirs := stats.totalDirs + 1 }
      rw [hr] at hrs
      simp only at hrs
      rw [← hrs]
      simp [String.empty_append, String.append_empty, String.append_assoc]
    | file name content =>
      rcases hr : renderEntries rest "" 0 (some 1) sh
          { totalFiles := stats.totalFiles + 1, totalDirs := stats.totalDirs }
        with ⟨rs, st⟩
      simp only [renderEntries, hr, renderTopLevelSpec]
      have hrs := ih sh { totalFiles := stats.totalFiles + 1, totalDirs := stats.totalDirs }
      rw [hr] at hrs
      simp only at hrs
      rw [← hrs]
      simp [String.empty_append, String.append_empty, String.append_assoc]

/-- C6: the tree rendered by `analyzeStructure` with `maxDepth = 1` is
exactly the one-level listing of the root's filtered immediate children (so
every immediate child is listed and nothing deeper); in general, once
`depth >= maxDepth` the builder renders nothing and counts nothing. -/
theorem structure_depth_c6 :
    (∀ (targetPath : String) (entries : List FSEntry) (showHidden : Bool),
      (analyzeStructure targetPath (some entries) (some 1) showHidden).tree =
        some (renderTopLevelSpec (sortEntries (visibleEntries showHidden entries)))) ∧
    (∀ (es : List FSEntry) (pfx : String) (depth m : Nat) (showHidden : Bool)
        (stats : DirectoryStats), m ≤ depth →
      buildTree es pfx depth (some m) showHidden stats = ("", stats)) := by
  constructor
  · intro targetPath entries showHidden
    have hd : depthReached 0 (some 1) = false := by decide
    rcases hb : buildTree entries "" 0 (some 1) showHidden
        { totalFiles := 0, totalDirs := 0 } with ⟨tree, stats⟩
    simp only [analyzeStructure, hb]
    unfold buildTree at hb
    rw [hd] at hb
    simp only [Bool.false_eq_true, if_false] at hb
    have := renderEntries_depth1
      (sortEntries (visibleEntries showHidden entries)) showHidden
      { totalFiles := 0, totalDirs := 0 }
    rw [hb] at this
    simp only at this
    rw [this]
  · intro es pfx depth m showHidden stats h
    have hd : depthReached depth (some m) = true := by
      simp [depthReached, h]
    unfold buildTree
    rw [hd]
    simp

/-- Witness for C6 at the depth cutoff. -/
theorem structure_depth_c6_witness :
    1 ≤ 2 ∧
    buildTree [FSEntry.file "a.ts" "x"] "" 2 (some 1) false
        { totalFiles := 0, totalDirs := 0 } =
      ("", { totalFiles := 0, totalDirs := 0 }) :=
  ⟨by decide, structure_depth_c6.2 [FSEntry.file "a.ts" "x"] "" 2 1 false
    { totalFiles := 0, totalDirs := 0 } (by decide)⟩
